import Mathlib

/-
Verification of the SparkV2 collaboration subsystem.

The definitions below are a shallow embedding of the presence/collaboration
room tracker in src/lib/socket.ts and of the client-side reconnection and
activity manager in src/lib/socket-client.ts.  JavaScript `Map`s are modelled
as insertion-ordered association lists with string keys (JS maps never hold
two entries for one key; `set` replaces in place, `delete` removes the entry).
Timestamps (`new Date().toISOString()`) are modelled as natural-number ticks
supplied to each event handler.
-/

namespace Spark

/-- Presence status carried by a session: online, idle or away. -/
inductive Status where
  | online
  | idle
  | away
deriving DecidableEq, Repr

/-- Cursor position attached to a presence record (socket.ts lines 10-14). -/
structure CursorPos where
  x : Int
  y : Int
  lastUpdate : Nat
deriving DecidableEq, Repr

/-- Mirror of the UserPresence record (socket.ts lines 3-15). -/
structure UserPresence where
  userId : String
  username : String
  avatar : Option String
  workspaceId : String
  status : Status
  lastSeen : Nat
  cursor : Option CursorPos
deriving DecidableEq, Repr

/-- Mirror of SparkEditingSession (socket.ts lines 17-22). -/
structure SparkEditingSession where
  sparkId : String
  userId : String
  username : String
  startedAt : Nat
deriving DecidableEq, Repr

/-- Mirror of CollaborationRoom (socket.ts lines 24-28): `users` is keyed by
socket id, `activeSparks` by the string `sparkId ++ "_" ++ socketId`. -/
structure CollaborationRoom where
  workspaceId : String
  users : List (String × UserPresence)
  activeSparks : List (String × SparkEditingSession)
deriving DecidableEq, Repr

/-- Per-connection closure state of the connection handler
(socket.ts lines 35-36: `userPresence`, `currentRoom`). -/
structure ConnState where
  userPresence : Option UserPresence
  currentRoom : Option String
deriving DecidableEq, Repr

/-- Global server state: the collaborationRooms map plus each connection's
closure state, keyed by socket id. -/
structure ServerState where
  rooms : List (String × CollaborationRoom)
  conns : List (String × ConnState)
deriving DecidableEq, Repr

/-- JS `Map.get` on an association list. -/
def alGet {α : Type} : List (String × α) → String → Option α
  | [], _ => none
  | (k', v) :: t, k => if k' = k then some v else alGet t k

/-- JS `Map.set`: replace in place if the key exists, else append. -/
def alSet {α : Type} : List (String × α) → String → α → List (String × α)
  | [], k, v => [(k, v)]
  | (k', v') :: t, k, v => if k' = k then (k, v) :: t else (k', v') :: alSet t k v

/-- JS `Map.delete`. -/
def alDelete {α : Type} : List (String × α) → String → List (String × α)
  | [], _ => []
  | (k', v) :: t, k => if k' = k then alDelete t k else (k', v) :: alDelete t k

/-- JS `Map.has`. -/
def alHas {α : Type} (l : List (String × α)) (k : String) : Bool :=
  (alGet l k).isSome

/-- The keys of an association list, in order. -/
def alKeys {α : Type} (l : List (String × α)) : List String :=
  l.map Prod.fst

/-- JS `String.prototype.endsWith`, used by the disconnect cleanup filter. -/
def strEndsWith (s suffix : String) : Bool :=
  suffix.data.isSuffixOf s.data

/-- Messages emitted by the relay to clients; the constructor records the
audience (a room broadcast or a reply to one socket) and the payload fields
the handlers actually send. -/
inductive Emit where
  | editingEnded (roomKey sparkId userId username : String)
  | userLeft (roomKey userId username : String)
  | userJoined (roomKey : String) (user : UserPresence)
  | roomState (sid : String) (users : List UserPresence)
      (activeSparks : List SparkEditingSession)
  | presenceUpdated (roomKey userId : String) (status : Status) (lastSeen : Nat)
  | cursorUpdated (roomKey userId username : String) (cursor : CursorPos)
  | editingStarted (roomKey : String) (session : SparkEditingSession)
deriving DecidableEq, Repr

/-- The client-to-relay events handled by setupSocket, tagged with the sending
socket id. -/
inductive Event where
  | join (sid userId username : String) (avatar : Option String) (workspaceId : String)
  | leave (sid workspaceId : String)
  | presenceUpdate (sid : String) (status : Status)
  | cursorUpdate (sid : String) (x y : Int)
  | editStart (sid sparkId : String)
  | editEnd (sid sparkId : String)
  | disconnect (sid : String)
deriving DecidableEq, Repr

/-- The closure state of a connection, defaulting to the freshly-connected
state (userPresence = null, currentRoom = null). -/
def getConn (st : ServerState) (sid : String) : ConnState :=
  (alGet st.conns sid).getD ⟨none, none⟩

/-- Model of handleUserLeave (socket.ts lines 289-328): look up the room, and
if the departing socket has a session there, delete it, delete every editing
claim whose key ends with "_" ++ socketId (emitting spark_editing_ended for
each), emit user_left, and discard the room if it became empty. -/
def handleUserLeave (rooms : List (String × CollaborationRoom)) (roomKey sid : String) :
    List (String × CollaborationRoom) × List Emit :=
  match alGet rooms roomKey with
  | none => (rooms, [])
  | some room =>
    match alGet room.users sid with
    | none => (rooms, [])
    | some user =>
      let users' := alDelete room.users sid
      let removed := room.activeSparks.filter (fun p => strEndsWith p.1 ("_" ++ sid))
      let sparks' := room.activeSparks.filter (fun p => !(strEndsWith p.1 ("_" ++ sid)))
      let ems := (removed.map (fun p => Emit.editingEnded roomKey p.2.sparkId p.2.userId p.2.username))
        ++ [Emit.userLeft roomKey user.userId user.username]
      if users'.length = 0 then (alDelete rooms roomKey, ems)
      else (alSet rooms roomKey { room with users := users', activeSparks := sparks' }, ems)

/-- The part of the user_join handler after the implicit leave of the previous
room (socket.ts lines 48-87): create the room if absent, insert the fresh
presence under the socket id, record the closure state, broadcast user_joined
and reply with room_state. -/
def joinCore (now : Nat) (rooms : List (String × CollaborationRoom))
    (conns : List (String × ConnState)) (sid userId username : String)
    (avatar : Option String) (workspaceId : String) : ServerState × List Emit :=
  let roomKey := "workspace_" ++ workspaceId
  let room := (alGet rooms roomKey).getD ⟨workspaceId, [], []⟩
  let p : UserPresence := ⟨userId, username, avatar, workspaceId, Status.online, now, none⟩
  let room' := { room with users := alSet room.users sid p }
  let rooms' := alSet rooms roomKey room'
  let conns' := alSet conns sid ⟨some p, some roomKey⟩
  (⟨rooms', conns'⟩,
    [Emit.userJoined roomKey p,
     Emit.roomState sid (room'.users.map Prod.snd) (room'.activeSparks.map Prod.snd)])

/-- One relay step: the setupSocket event handlers of socket.ts, with `now`
the timestamp stamped on the records created during this event. -/
def step (now : Nat) (st : ServerState) (e : Event) : ServerState × List Emit :=
  match e with
  | .join sid userId username avatar workspaceId =>
    let c := getConn st sid
    let pre := match c.currentRoom with
      | some r => handleUserLeave st.rooms r sid
      | none => (st.rooms, [])
    let res := joinCore now pre.1 st.conns sid userId username avatar workspaceId
    (res.1, pre.2 ++ res.2)
  | .leave sid workspaceId =>
    let roomKey := "workspace_" ++ workspaceId
    let pre := handleUserLeave st.rooms roomKey sid
    let c := getConn st sid
    (⟨pre.1, alSet st.conns sid ⟨c.userPresence, none⟩⟩, pre.2)
  | .presenceUpdate sid status =>
    let c := getConn st sid
    match c.currentRoom, c.userPresence with
    | some roomKey, some p =>
      (match alGet st.rooms roomKey with
       | some room =>
         if alHas room.users sid then
           let p' := { p with status := status, lastSeen := now }
           let room' := { room with users := alSet room.users sid p' }
           (⟨alSet st.rooms roomKey room', alSet st.conns sid ⟨some p', c.currentRoom⟩⟩,
            [Emit.presenceUpdated roomKey p'.userId status p'.lastSeen])
         else (st, [])
       | none => (st, []))
    | _, _ => (st, [])
  | .cursorUpdate sid x y =>
    let c := getConn st sid
    match c.currentRoom, c.userPresence with
    | some roomKey, some p =>
      (match alGet st.rooms roomKey with
       | some room =>
         if alHas room.users sid then
           let p' := { p with cursor := some ⟨x, y, now⟩ }
           let room' := { room with users := alSet room.users sid p' }
           (⟨alSet st.rooms roomKey room', alSet st.conns sid ⟨some p', c.currentRoom⟩⟩,
            [Emit.cursorUpdated roomKey p'.userId p'.username ⟨x, y, now⟩])
         else (st, [])
       | none => (st, []))
    | _, _ => (st, [])
  | .editStart sid sparkId =>
    let c := getConn st sid
    match c.currentRoom, c.userPresence with
    | some roomKey, some p =>
      (match alGet st.rooms roomKey with
       | some room =>
         let s : SparkEditingSession := ⟨sparkId, p.userId, p.username, now⟩
         let room' := { room with activeSparks := alSet room.activeSparks (sparkId ++ "_" ++ sid) s }
         (⟨alSet st.rooms roomKey room', st.conns⟩, [Emit.editingStarted roomKey s])
       | none => (st, []))
    | _, _ => (st, [])
  | .editEnd sid sparkId =>
    let c := getConn st sid
    match c.currentRoom, c.userPresence with
    | some roomKey, some p =>
      (match alGet st.rooms roomKey with
       | some room =>
         let sessionKey := sparkId ++ "_" ++ sid
         (match alGet room.activeSparks sessionKey with
          | some _ =>
            let room' := { room with activeSparks := alDelete room.activeSparks sessionKey }
            (⟨alSet st.rooms roomKey room', st.conns⟩,
             [Emit.editingEnded roomKey sparkId p.userId p.username])
          | none => (st, []))
       | none => (st, []))
    | _, _ => (st, [])
  | .disconnect sid =>
    let c := getConn st sid
    match c.currentRoom with
    | some roomKey =>
      let pre := handleUserLeave st.rooms roomKey sid
      (⟨pre.1, st.conns⟩, pre.2)
    | none => (st, [])

/-- The server starts with no rooms and no connections. -/
def initState : ServerState := ⟨[], []⟩

/-- Process a trace of events, stamping event number n with timestamp n. -/
def runAux (n : Nat) (st : ServerState) : List Event → ServerState
  | [] => st
  | e :: es => runAux (n + 1) (step n st e).1 es

/-- Run a trace from the initial server state. -/
def run (es : List Event) : ServerState := runAux 0 initState es

/-- The users map of the room stored under a key (empty if the room is absent). -/
def usersOf (rooms : List (String × CollaborationRoom)) (rk : String) :
    List (String × UserPresence) :=
  match alGet rooms rk with
  | some room => room.users
  | none => []

/-- The claims map of the room stored under a key (empty if the room is absent). -/
def sparksOf (rooms : List (String × CollaborationRoom)) (rk : String) :
    List (String × SparkEditingSession) :=
  match alGet rooms rk with
  | some room => room.activeSparks
  | none => []

/-- Whether socket sid currently has a presence session in room rk. -/
def memberB (st : ServerState) (sid rk : String) : Bool :=
  alHas (usersOf st.rooms rk) sid

/-- The number of presence sessions in room rk. -/
def roomSize (st : ServerState) (rk : String) : Nat :=
  (usersOf st.rooms rk).length

/-- ConnectionStatus of socket-client.ts line 61. -/
inductive ConnStatus where
  | connecting
  | connected
  | disconnected
  | reconnecting
  | error
deriving DecidableEq, Repr

/-- The reconnect-relevant fields of SocketClient. -/
structure ClientState where
  connectionStatus : ConnStatus
  reconnectAttempts : Nat
deriving DecidableEq, Repr

/-- socket-client.ts line 68. -/
def maxReconnectAttempts : Nat := 5

/-- socket-client.ts line 69 (milliseconds). -/
def baseReconnectDelay : Nat := 1000

/-- Model of SocketClient.attemptReconnect (socket-client.ts lines 270-290):
returns the new state and the backoff delay scheduled via setTimeout, if any. -/
def attemptReconnect (st : ClientState) : ClientState × Option Nat :=
  if maxReconnectAttempts ≤ st.reconnectAttempts then
    ({ st with connectionStatus := ConnStatus.error }, none)
  else
    let attempts := st.reconnectAttempts + 1
    (⟨ConnStatus.reconnecting, attempts⟩, some (baseReconnectDelay * 2 ^ (attempts - 1)))

/-- Model of the client's `disconnect` handler (socket-client.ts lines 205-219):
set status to disconnected; if the reason is a server-initiated close, stop;
otherwise attempt an automatic reconnect. -/
def handleDrop (reason : String) (st : ClientState) : ClientState × Option Nat :=
  let st1 := { st with connectionStatus := ConnStatus.disconnected }
  if reason = "io server disconnect" then (st1, none)
  else attemptReconnect st1

/-- Model of the `connect` success handler (socket-client.ts lines 96-103):
status becomes connected and the attempt counter resets. -/
def connectSuccess (_st : ClientState) : ClientState :=
  ⟨ConnStatus.connected, 0⟩

/-- Process a sequence of drops, collecting every scheduled reconnect delay. -/
def runDrops (st : ClientState) : List String → ClientState × List Nat
  | [] => (st, [])
  | r :: rs =>
    let x := handleDrop r st
    let y := runDrops x.1 rs
    (y.1, x.2.toList ++ y.2)

/-- The activity-tracking fields of SocketClient (socket-client.ts lines 64-72):
whether the underlying socket is connected, whether currentUser is set, the
current presence status, and the pending idle/away setTimeout deadlines. -/
structure ActivityState where
  connected : Bool
  hasUser : Bool
  status : Status
  idleTimer : Option Nat
  awayTimer : Option Nat
deriving DecidableEq, Repr

/-- socket-client.ts line 314: five minutes, in milliseconds. -/
def idleThresholdMs : Nat := 5 * 60 * 1000

/-- socket-client.ts line 313: ten further minutes, in milliseconds. -/
def awayThresholdMs : Nat := 10 * 60 * 1000

/-- Model of SocketClient.updatePresence (socket-client.ts lines 167-172): a
no-op unless the socket is connected and a current user is set. -/
def updatePresence (s : Status) (st : ActivityState) : ActivityState :=
  if st.connected && st.hasUser then { st with status := s } else st

/-- Model of clearPresenceTimers (socket-client.ts lines 331-340). -/
def clearPresenceTimers (st : ActivityState) : ActivityState :=
  { st with idleTimer := none, awayTimer := none }

/-- Model of resetTimers (socket-client.ts lines 295-315), run on every tracked
input event at time `now`: clear both timers, promote to online when the
tracked status is not already online, and arm the idle timer. -/
def resetTimers (now : Nat) (st : ActivityState) : ActivityState :=
  let st1 := clearPresenceTimers st
  let st2 := if st1.hasUser && st1.status == Status.online then st1
             else updatePresence Status.online st1
  { st2 with idleTimer := some (now + idleThresholdMs) }

/-- The idle setTimeout callback (socket-client.ts lines 303-314) firing at its
deadline: demote online to idle, and arm the away timer. -/
def fireIdle (now : Nat) (st : ActivityState) : ActivityState :=
  let st1 := { st with idleTimer := none }
  let st2 := if st1.hasUser && st1.status == Status.online then updatePresence Status.idle st1
             else st1
  { st2 with awayTimer := some (now + awayThresholdMs) }

/-- The away setTimeout callback (socket-client.ts lines 309-313) firing at its
deadline: demote idle to away. -/
def fireAway (_now : Nat) (st : ActivityState) : ActivityState :=
  let st1 := { st with awayTimer := none }
  if st1.hasUser && st1.status == Status.idle then updatePresence Status.away st1
  else st1

/-- Spec-level fold step for "connection sid is currently joined to room rk":
a join by sid targets rk or not; a leave by sid naming rk, or a disconnect by
sid, ends the membership; other events do not affect it. -/
def joinedStepB (sid rk : String) (b : Bool) (e : Event) : Bool :=
  match e with
  | .join s _ _ _ w => if s = sid then decide ("workspace_" ++ w = rk) else b
  | .leave s w => if s = sid ∧ "workspace_" ++ w = rk then false else b
  | .disconnect s => if s = sid then false else b
  | _ => b

/-- Connection sid has joined room rk and not since left it or disconnected. -/
def joinedSpec (es : List Event) (sid rk : String) : Bool :=
  es.foldl (joinedStepB sid rk) false

/-- Number of join events an event contributes to room rk. -/
def joinsOfStep (e : Event) (rk : String) : Nat :=
  match e with
  | .join _ _ _ _ w => if "workspace_" ++ w = rk then 1 else 0
  | _ => 0

/-- Number of join events in a trace targeting room rk. -/
def countJoins (es : List Event) (rk : String) : Nat :=
  (es.map (fun e => joinsOfStep e rk)).sum

/-- Number of sessions an event removes from room rk: a leave or disconnect of
a member, or the implicit removal performed when a member of rk processes a
join (the join handler first leaves the tracked current room). -/
def removalsOfStep (st : ServerState) (e : Event) (rk : String) : Nat :=
  match e with
  | .join sid _ _ _ _ =>
    if (getConn st sid).currentRoom = some rk ∧ memberB st sid rk then 1 else 0
  | .leave sid w => if "workspace_" ++ w = rk ∧ memberB st sid rk then 1 else 0
  | .disconnect sid =>
    if (getConn st sid).currentRoom = some rk ∧ memberB st sid rk then 1 else 0
  | _ => 0

/-- Number of sessions an event removes from room rk, counting only explicit
leave/disconnect events of current members (the literal reading of the claim,
with no accounting for the implicit removal inside the join handler). -/
def eventRemovalsOfStep (st : ServerState) (e : Event) (rk : String) : Nat :=
  match e with
  | .leave sid w => if "workspace_" ++ w = rk ∧ memberB st sid rk then 1 else 0
  | .disconnect sid =>
    if (getConn st sid).currentRoom = some rk ∧ memberB st sid rk then 1 else 0
  | _ => 0

/-- Total removals from room rk along a run (implicit removals included). -/
def countRemovals (rk : String) : Nat → ServerState → List Event → Nat
  | _, _, [] => 0
  | n, st, e :: es => removalsOfStep st e rk + countRemovals rk (n + 1) (step n st e).1 es

/-- Total leave/disconnect removals from room rk along a run. -/
def countEventRemovals (rk : String) : Nat → ServerState → List Event → Nat
  | _, _, [] => 0
  | n, st, e :: es => eventRemovalsOfStep st e rk + countEventRemovals rk (n + 1) (step n st e).1 es

/-- A leave event is well formed in a state when the workspace it names is the
one whose room actually holds the sender's session (clients send user_leave
with the workspace they are in); every other event is always well formed. -/
def wfEventB (st : ServerState) (e : Event) : Bool :=
  match e with
  | .leave sid w =>
    st.rooms.all (fun p => !(alHas p.2.users sid) || (p.1 == "workspace_" ++ w))
  | _ => true

/-- A trace is well formed when every leave event is well formed in the state
it is processed in. -/
def wfTraceB : Nat → ServerState → List Event → Bool
  | _, _, [] => true
  | n, st, e :: es => wfEventB st e && wfTraceB (n + 1) (step n st e).1 es

/-- Structural invariant of the room registry: the rooms map and, in every
room, the users and activeSparks maps have no duplicate keys (they model JS
Maps). -/
def roomsND (rooms : List (String × CollaborationRoom)) : Prop :=
  (alKeys rooms).Nodup ∧
  ∀ rk room, alGet rooms rk = some room →
    (alKeys room.users).Nodup ∧ (alKeys room.activeSparks).Nodup

/-- Tracking invariant: a socket with a session in room rk has rk recorded as
its current room (this can be broken only by a leave event naming the wrong
workspace, which well-formed traces exclude). -/
def trackInv (st : ServerState) : Prop :=
  ∀ rk sid, alHas (usersOf st.rooms rk) sid = true →
    (getConn st sid).currentRoom = some rk

/-- Counterexample trace for C1: connection s joins workspace W, then switches
to workspace W2.  The switch silently removes the session from W's room inside
the join handler, with no leave or disconnect event on W. -/
def c1Trace : List Event :=
  [Event.join "s" "u" "nm" none "W", Event.join "s" "u" "nm" none "W2"]

/-- A well-formed trace exercising joins, a leave, a disconnect and a re-join
on workspace W. -/
def c1WfTrace : List Event :=
  [Event.join "s1" "u1" "n1" none "W",
   Event.join "s2" "u2" "n2" none "W",
   Event.leave "s1" "W",
   Event.disconnect "s2",
   Event.join "s3" "u3" "n3" none "W"]

/-- Counterexample trace for C3: s1 joins W, sends a leave naming the wrong
workspace X (which only clears its tracked room), then disconnects; the
disconnect performs no cleanup, so s1's session is stale in room W. -/
def c3Trace : List Event :=
  [Event.join "s1" "u1" "n1" none "W",
   Event.leave "s1" "X",
   Event.disconnect "s1"]

/-- Concrete setup for the C10 witness: s joins W and starts editing item it. -/
def c10Trace : List Event :=
  [Event.join "s" "u" "nm" none "W", Event.editStart "s" "it"]

/-- Concrete setup for the C8 witness: two connections join workspace W. -/
def c8Trace : List Event :=
  [Event.join "s1" "u1" "n1" none "W", Event.join "s2" "u2" "n2" none "W"]

/-- Failing-input trace for C2: connection b_c joins W and claims item a
(claim key "a_b_c"); connection c also joins W. -/
def c2Trace : List Event :=
  [Event.join "b_c" "u1" "n1" none "W",
   Event.join "c" "u2" "n2" none "W",
   Event.editStart "b_c" "a"]

/-- Failing-input trace for C6: connection c joins W and begins editing item
a_b (claim key "a_b_c"); connection b_c joins W and never begins any edit. -/
def c6Trace : List Event :=
  [Event.join "c" "u1" "n1" none "W",
   Event.editStart "c" "a_b",
   Event.join "b_c" "u2" "n2" none "W"]

@[simp]
theorem alGet_nil {α : Type} (k : String) : alGet ([] : List (String × α)) k = none := rfl

@[simp]
theorem alGet_alSet_self {α : Type} (l : List (String × α)) (k : String) (v : α) :
    alGet (alSet l k v) k = some v := by
  induction l with
  | nil => simp [alGet, alSet]
  | cons h t ih =>
    obtain ⟨k', v'⟩ := h
    by_cases hk : k' = k <;> simp [alGet, alSet, hk, ih]

theorem alGet_alSet_ne {α : Type} (l : List (String × α)) (k k' : String) (v : α)
    (h : k' ≠ k) : alGet (alSet l k v) k' = alGet l k' := by
  induction l with
  | nil => simp [alGet, alSet, Ne.symm h]
  | cons hd t ih =>
    obtain ⟨k'', v''⟩ := hd
    by_cases hk : k'' = k
    · subst hk
      simp [alGet, alSet, Ne.symm h]
    · by_cases hk' : k'' = k' <;> simp [alGet, alSet, hk, hk', h, ih]

@[simp]
theorem alGet_alDelete_self {α : Type} (l : List (String × α)) (k : String) :
    alGet (alDelete l k) k = none := by
  induction l with
  | nil => simp [alDelete]
  | cons hd t ih =>
    obtain ⟨k', v⟩ := hd
    by_cases hk : k' = k <;> simp [alGet, alDelete, hk, ih]

theorem alGet_alDelete_ne {α : Type} (l : List (String × α)) (k k' : String)
    (h : k' ≠ k) : alGet (alDelete l k) k' = alGet l k' := by
  induction l with
  | nil => simp [alDelete]
  | cons hd t ih =>
    obtain ⟨k'', v⟩ := hd
    by_cases hk : k'' = k
    · subst hk
      simp [alGet, alDelete, Ne.symm h, ih]
    · by_cases hk' : k'' = k' <;> simp [alGet, alDelete, hk, hk', h, ih]

theorem alDelete_of_get_none {α : Type} (l : List (String × α)) (k : String)
    (h : alGet l k = none) : alDelete l k = l := by
  induction l with
  | nil => simp [alDelete]
  | cons hd t ih =>
    obtain ⟨k', v⟩ := hd
    by_cases hk : k' = k
    · simp [alGet, hk] at h
    · simp [alGet, hk] at h
      simp [alDelete, hk, ih h]

theorem alGet_eq_none_iff {α : Type} (l : List (String × α)) (k : String) :
    alGet l k = none ↔ k ∉ alKeys l := by
  induction l with
  | nil => simp [alKeys]
  | cons hd t ih =>
    obtain ⟨k', v⟩ := hd
    by_cases hk : k' = k
    · subst hk
      simp [alGet, alKeys]
    · have hk2 : k ≠ k' := Ne.symm hk
      simp [alGet, alKeys, hk, hk2, ih]

theorem length_alSet_get_none {α : Type} (l : List (String × α)) (k : String) (v : α)
    (h : alGet l k = none) : (alSet l k v).length = l.length + 1 := by
  induction l with
  | nil => simp [alSet]
  | cons hd t ih =>
    obtain ⟨k', v'⟩ := hd
    by_cases hk : k' = k
    · simp [alGet, hk] at h
    · simp [alGet, hk] at h
      simp [alSet, hk, ih h]

theorem length_alSet_get_some {α : Type} (l : List (String × α)) (k : String) (v v' : α)
    (h : alGet l k = some v') : (alSet l k v).length = l.length := by
  induction l with
  | nil => simp [alGet] at h
  | cons hd t ih =>
    obtain ⟨k'', v''⟩ := hd
    by_cases hk : k'' = k
    · simp [alSet, hk]
    · simp [alGet, hk] at h
      simp [alSet, hk, ih h]

theorem length_alDelete_get_some {α : Type} (l : List (String × α)) (k : String) (v : α)
    (hnd : (alKeys l).Nodup) (h : alGet l k = some v) :
    (alDelete l k).length + 1 = l.length := by
  induction l with
  | nil => simp [alGet] at h
  | cons hd t ih =>
    obtain ⟨k', v'⟩ := hd
    simp only [alKeys, List.map_cons, List.nodup_cons] at hnd
    by_cases hk : k' = k
    · subst hk
      have : alGet t k' = none := by
        rw [alGet_eq_none_iff]
        exact hnd.1
      simp [alDelete, alDelete_of_get_none t k' this]
    · simp [alGet, hk] at h
      simp [alDelete, hk, ih hnd.2 h]

theorem alKeys_alSet_get_some {α : Type} (l : List (String × α)) (k : String) (v v' : α)
    (h : alGet l k = some v') : alKeys (alSet l k v) = alKeys l := by
  induction l with
  | nil => simp [alGet] at h
  | cons hd t ih =>
    obtain ⟨k'', v''⟩ := hd
    by_cases hk : k'' = k
    · simp [alSet, alKeys, hk]
    · simp [alGet, hk] at h
      simp [alSet, alKeys, hk] at *
      exact ih h

theorem alKeys_alSet_get_none {α : Type} (l : List (String × α)) (k : String) (v : α)
    (h : alGet l k = none) : alKeys (alSet l k v) = alKeys l ++ [k] := by
  induction l with
  | nil => simp [alSet, alKeys]
  | cons hd t ih =>
    obtain ⟨k'', v''⟩ := hd
    by_cases hk : k'' = k
    · simp [alGet, hk] at h
    · simp [alGet, hk] at h
      simp [alSet, alKeys, hk] at *
      exact ih h

theorem alKeys_alDelete_sublist {α : Type} (l : List (String × α)) (k : String) :
    (alKeys (alDelete l k)).Sublist (alKeys l) := by
  induction l with
  | nil => simp [alDelete, alKeys]
  | cons hd t ih =>
    obtain ⟨k', v⟩ := hd
    by_cases hk : k' = k
    · simp only [alDelete, hk, if_pos rfl]
      exact ih.trans (List.sublist_cons_self _ _)
    · simp only [alDelete, hk, if_neg hk, alKeys, List.map_cons]
      exact ih.cons₂ _

theorem nodup_alKeys_alSet {α : Type} (l : List (String × α)) (k : String) (v : α)
    (h : (alKeys l).Nodup) : (alKeys (alSet l k v)).Nodup := by
  cases hg : alGet l k with
  | none =>
    rw [alKeys_alSet_get_none l k v hg]
    refine List.Nodup.append h (List.nodup_singleton k) ?_
    intro x hx hy
    simp at hy
    rw [hy] at hx
    exact (alGet_eq_none_iff l k).mp hg hx
  | some v' =>
    rw [alKeys_alSet_get_some l k v v' hg]
    exact h

theorem nodup_alKeys_alDelete {α : Type} (l : List (String × α)) (k : String)
    (h : (alKeys l).Nodup) : (alKeys (alDelete l k)).Nodup :=
  (alKeys_alDelete_sublist l k).nodup h

theorem alHas_eq_true_iff {α : Type} (l : List (String × α)) (k : String) :
    alHas l k = true ↔ ∃ v, alGet l k = some v := by
  simp [alHas, Option.isSome_iff_exists]

theorem alKeys_filter_sublist {α : Type} (l : List (String × α)) (f : String × α → Bool) :
    (alKeys (l.filter f)).Sublist (alKeys l) :=
  List.Sublist.map Prod.fst (List.filter_sublist l)

theorem roomsND_alSet (rooms : List (String × CollaborationRoom)) (rk : String)
    (room : CollaborationRoom) (h : roomsND rooms)
    (hroom : (alKeys room.users).Nodup ∧ (alKeys room.activeSparks).Nodup) :
    roomsND (alSet rooms rk room) := by
  constructor
  · exact nodup_alKeys_alSet _ _ _ h.1
  · intro rk' r' hget
    by_cases hk : rk' = rk
    · subst hk
      rw [alGet_alSet_self] at hget
      cases hget
      exact hroom
    · rw [alGet_alSet_ne rooms rk rk' room hk] at hget
      exact h.2 rk' r' hget

theorem roomsND_alDelete (rooms : List (String × CollaborationRoom)) (rk : String)
    (h : roomsND rooms) : roomsND (alDelete rooms rk) := by
  constructor
  · exact nodup_alKeys_alDelete _ _ h.1
  · intro rk' r' hget
    by_cases hk : rk' = rk
    · subst hk
      rw [alGet_alDelete_self] at hget
      cases hget
    · rw [alGet_alDelete_ne rooms rk rk' hk] at hget
      exact h.2 rk' r' hget

theorem hul_roomsND (rooms : List (String × CollaborationRoom)) (rk sid : String)
    (h : roomsND rooms) : roomsND (handleUserLeave rooms rk sid).1 := by
  unfold handleUserLeave
  cases hr : alGet rooms rk with
  | none => exact h
  | some room =>
    dsimp only
    cases hu : alGet room.users sid with
    | none => exact h
    | some user =>
      dsimp only
      split
      · exact roomsND_alDelete rooms rk h
      · refine roomsND_alSet rooms rk _ h ⟨?_, ?_⟩
        · exact nodup_alKeys_alDelete _ _ (h.2 rk room hr).1
        · exact (alKeys_filter_sublist _ _).nodup (h.2 rk room hr).2

theorem joinCore_roomsND (now : Nat) (rooms : List (String × CollaborationRoom))
    (conns : List (String × ConnState)) (sid userId username : String)
    (avatar : Option String) (workspaceId : String) (h : roomsND rooms) :
    roomsND (joinCore now rooms conns sid userId username avatar workspaceId).1.rooms := by
  unfold joinCore
  simp only []
  refine roomsND_alSet _ _ _ h ⟨?_, ?_⟩
  · cases hr : alGet rooms ("workspace_" ++ workspaceId) with
    | none => simp [hr, alSet, alKeys]
    | some room =>
      simp only [hr, Option.getD_some]
      exact nodup_alKeys_alSet _ _ _ (h.2 _ room hr).1
  · cases hr : alGet rooms ("workspace_" ++ workspaceId) with
    | none => simp [hr, alKeys]
    | some room =>
      simp only [hr, Option.getD_some]
      exact (h.2 _ room hr).2

theorem stepRoomsND (n : Nat) (st : ServerState) (e : Event) (h : roomsND st.rooms) :
    roomsND (step n st e).1.rooms := by
  cases e with
  | join sid userId username avatar workspaceId =>
    simp only [step]
    cases hcr : (getConn st sid).currentRoom with
    | none => exact joinCore_roomsND _ _ _ _ _ _ _ _ h
    | some r => exact joinCore_roomsND _ _ _ _ _ _ _ _ (hul_roomsND st.rooms r sid h)
  | leave sid workspaceId =>
    simp only [step]
    exact hul_roomsND _ _ _ h
  | presenceUpdate sid status =>
    simp only [step]
    cases hcr : (getConn st sid).currentRoom with
    | none => exact h
    | some roomKey =>
      cases hup : (getConn st sid).userPresence with
      | none => exact h
      | some p =>
        dsimp only
        cases hr : alGet st.rooms roomKey with
        | none => exact h
        | some room =>
          dsimp only
          by_cases hh : alHas room.users sid = true
          · rw [if_pos hh]
            refine roomsND_alSet _ _ _ h ⟨?_, (h.2 _ room hr).2⟩
            exact nodup_alKeys_alSet _ _ _ (h.2 _ room hr).1
          · rw [if_neg hh]
            exact h
  | cursorUpdate sid x y =>
    simp only [step]
    cases hcr : (getConn st sid).currentRoom with
    | none => exact h
    | some roomKey =>
      cases hup : (getConn st sid).userPresence with
      | none => exact h
      | some p =>
        dsimp only
        cases hr : alGet st.rooms roomKey with
        | none => exact h
        | some room =>
          dsimp only
          by_cases hh : alHas room.users sid = true
          · rw [if_pos hh]
            refine roomsND_alSet _ _ _ h ⟨?_, (h.2 _ room hr).2⟩
            exact nodup_alKeys_alSet _ _ _ (h.2 _ room hr).1
          · rw [if_neg hh]
            exact h
  | editStart sid sparkId =>
    simp only [step]
    cases hcr : (getConn st sid).currentRoom with
    | none => exact h
    | some roomKey =>
      cases hup : (getConn st sid).userPresence with
      | none => exact h
      | some p =>
        dsimp only
        cases hr : alGet st.rooms roomKey with
        | none => exact h
        | some room =>
          dsimp only
          refine roomsND_alSet _ _ _ h ⟨(h.2 _ room hr).1, ?_⟩
          exact nodup_alKeys_alSet _ _ _ (h.2 _ room hr).2
  | editEnd sid sparkId =>
    simp only [step]
    cases hcr : (getConn st sid).currentRoom with
    | none => exact h
    | some roomKey =>
      cases hup : (getConn st sid).userPresence with
      | none => exact h
      | some p =>
        dsimp only
        cases hr : alGet st.rooms roomKey with
        | none => exact h
        | some room =>
          dsimp only
          cases hs : alGet room.activeSparks (sparkId ++ "_" ++ sid) with
          | none => exact h
          | some s =>
            dsimp only
            refine roomsND_alSet _ _ _ h ⟨(h.2 _ room hr).1, ?_⟩
            exact nodup_alKeys_alDelete _ _ (h.2 _ room hr).2
  | disconnect sid =>
    simp only [step]
    cases hcr : (getConn st sid).currentRoom with
    | none => exact h
    | some roomKey => exact hul_roomsND _ _ _ h

theorem runAux_roomsND (es : List Event) :
    ∀ n st, roomsND st.rooms → roomsND (runAux n st es).rooms := by
  induction es with
  | nil => intro n st h; exact h
  | cons e es ih =>
    intro n st h
    exact ih (n + 1) (step n st e).1 (stepRoomsND n st e h)

theorem roomsND_initState : roomsND initState.rooms := by
  constructor
  · simp [initState, alKeys]
  · intro rk room hget
    simp [initState, alGet] at hget

theorem run_roomsND (es : List Event) : roomsND (run es).rooms :=
  runAux_roomsND es 0 initState roomsND_initState

theorem alHas_alSet_self {α : Type} (l : List (String × α)) (k : String) (v : α) :
    alHas (alSet l k v) k = true := by
  simp [alHas, alGet_alSet_self]

theorem alHas_alSet_ne {α : Type} (l : List (String × α)) (k k' : String) (v : α)
    (h : k' ≠ k) : alHas (alSet l k v) k' = alHas l k' := by
  simp [alHas, alGet_alSet_ne l k k' v h]

theorem alHas_alDelete_self {α : Type} (l : List (String × α)) (k : String) :
    alHas (alDelete l k) k = false := by
  simp [alHas, alGet_alDelete_self]

theorem alHas_alDelete_ne {α : Type} (l : List (String × α)) (k k' : String)
    (h : k' ≠ k) : alHas (alDelete l k) k' = alHas l k' := by
  simp [alHas, alGet_alDelete_ne l k k' h]

theorem alGet_mem {α : Type} (l : List (String × α)) (k : String) (v : α)
    (h : alGet l k = some v) : (k, v) ∈ l := by
  induction l with
  | nil => simp [alGet] at h
  | cons hd t ih =>
    obtain ⟨k', v'⟩ := hd
    by_cases hk : k' = k
    · subst hk
      simp [alGet] at h
      simp [h]
    · simp [alGet, hk] at h
      simp [ih h]

theorem usersOf_alSet_self (rooms : List (String × CollaborationRoom)) (rk : String)
    (room : CollaborationRoom) : usersOf (alSet rooms rk room) rk = room.users := by
  simp [usersOf, alGet_alSet_self]

theorem usersOf_alSet_ne (rooms : List (String × CollaborationRoom)) (rk rk' : String)
    (room : CollaborationRoom) (h : rk' ≠ rk) :
    usersOf (alSet rooms rk room) rk' = usersOf rooms rk' := by
  simp [usersOf, alGet_alSet_ne rooms rk rk' room h]

theorem usersOf_alDelete_self (rooms : List (String × CollaborationRoom)) (rk : String) :
    usersOf (alDelete rooms rk) rk = [] := by
  simp [usersOf, alGet_alDelete_self]

theorem usersOf_alDelete_ne (rooms : List (String × CollaborationRoom)) (rk rk' : String)
    (h : rk' ≠ rk) : usersOf (alDelete rooms rk) rk' = usersOf rooms rk' := by
  simp [usersOf, alGet_alDelete_ne rooms rk rk' h]

theorem hul_alGet_ne (rooms : List (String × CollaborationRoom)) (rk sid rk' : String)
    (h : rk' ≠ rk) : alGet (handleUserLeave rooms rk sid).1 rk' = alGet rooms rk' := by
  unfold handleUserLeave
  cases hr : alGet rooms rk with
  | none => rfl
  | some room =>
    dsimp only
    cases hu : alGet room.users sid with
    | none => rfl
    | some user =>
      dsimp only
      split
      · exact alGet_alDelete_ne rooms rk rk' h
      · exact alGet_alSet_ne rooms rk rk' _ h

theorem hul_usersOf_self (rooms : List (String × CollaborationRoom)) (rk sid : String) :
    usersOf (handleUserLeave rooms rk sid).1 rk = alDelete (usersOf rooms rk) sid := by
  unfold handleUserLeave
  cases hr : alGet rooms rk with
  | none => simp [usersOf, hr, alDelete]
  | some room =>
    dsimp only
    cases hu : alGet room.users sid with
    | none =>
      simp [usersOf, hr, alDelete_of_get_none room.users sid hu]
    | some user =>
      dsimp only
      split
      · rename_i h0
        rw [usersOf_alDelete_self]
        unfold usersOf
        rw [hr]
        exact (List.length_eq_zero.mp h0).symm
      · rw [usersOf_alSet_self]
        unfold usersOf
        rw [hr]

theorem hul_usersOf_ne (rooms : List (String × CollaborationRoom)) (rk sid rk' : String)
    (h : rk' ≠ rk) : usersOf (handleUserLeave rooms rk sid).1 rk' = usersOf rooms rk' := by
  unfold usersOf
  rw [hul_alGet_ne rooms rk sid rk' h]

theorem hul_alHas_imp (rooms : List (String × CollaborationRoom)) (rk sid rk' s : String)
    (h : alHas (usersOf (handleUserLeave rooms rk sid).1 rk') s = true) :
    alHas (usersOf rooms rk') s = true := by
  by_cases hk : rk' = rk
  · subst hk
    rw [hul_usersOf_self] at h
    by_cases hs : s = sid
    · subst hs
      rw [alHas_alDelete_self] at h
      cases h
    · rwa [alHas_alDelete_ne _ _ _ hs] at h
  · rwa [hul_usersOf_ne rooms rk sid rk' hk] at h

theorem getD_users_eq_usersOf (rooms : List (String × CollaborationRoom)) (rk w : String) :
    ((alGet rooms rk).getD ⟨w, [], []⟩).users = usersOf rooms rk := by
  cases h : alGet rooms rk <;> simp [usersOf, h]

theorem joinCore_trackInv (now : Nat) (rooms : List (String × CollaborationRoom))
    (conns : List (String × ConnState)) (sid userId username : String)
    (avatar : Option String) (workspaceId : String)
    (hpre : trackInv ⟨rooms, conns⟩)
    (hsid : ∀ rk, alHas (usersOf rooms rk) sid = false) :
    trackInv (joinCore now rooms conns sid userId username avatar workspaceId).1 := by
  intro rk s hmem
  unfold joinCore at hmem ⊢
  dsimp only at hmem ⊢
  by_cases hk : rk = "workspace_" ++ workspaceId
  · subst hk
    rw [usersOf_alSet_self] at hmem
    dsimp only at hmem
    by_cases hs : s = sid
    · subst hs
      simp [getConn, alGet_alSet_self]
    · rw [alHas_alSet_ne _ _ _ _ hs, getD_users_eq_usersOf] at hmem
      have h2 := hpre _ s hmem
      simp only [getConn, alGet_alSet_ne conns sid s _ hs]
      exact h2
  · rw [usersOf_alSet_ne _ _ _ _ hk] at hmem
    by_cases hs : s = sid
    · subst hs
      rw [hsid rk] at hmem
      cases hmem
    · have h2 := hpre rk s hmem
      simp only [getConn, alGet_alSet_ne conns sid s _ hs]
      exact h2

theorem stepTrackInv (n : Nat) (st : ServerState) (e : Event) (hT : trackInv st)
    (hwf : wfEventB st e = true) : trackInv (step n st e).1 := by
  cases e with
  | join sid userId username avatar workspaceId =>
    simp only [step]
    cases hcr : (getConn st sid).currentRoom with
    | none =>
      dsimp only
      refine joinCore_trackInv _ _ _ _ _ _ _ _ hT ?_
      intro rk
      cases hmem : alHas (usersOf st.rooms rk) sid with
      | false => rfl
      | true =>
        have h2 := hT rk sid hmem
        rw [hcr] at h2
        cases h2
    | some r0 =>
      dsimp only
      refine joinCore_trackInv _ _ _ _ _ _ _ _ ?_ ?_
      · intro rk s hmem
        exact hT rk s (hul_alHas_imp st.rooms r0 sid rk s hmem)
      · intro rk
        by_cases hk : rk = r0
        · subst hk
          rw [hul_usersOf_self, alHas_alDelete_self]
        · rw [hul_usersOf_ne _ _ _ _ hk]
          cases hmem : alHas (usersOf st.rooms rk) sid with
          | false => rfl
          | true =>
            have h2 := hT rk sid hmem
            rw [hcr] at h2
            injection h2 with h3
            exact absurd h3.symm hk
  | leave sid workspaceId =>
    simp only [step]
    intro rk s hmem
    have hbefore := hul_alHas_imp st.rooms ("workspace_" ++ workspaceId) sid rk s hmem
    by_cases hs : s = sid
    · subst hs
      by_cases hk : rk = "workspace_" ++ workspaceId
      · subst hk
        rw [hul_usersOf_self, alHas_alDelete_self] at hmem
        cases hmem
      · exfalso
        unfold wfEventB at hwf
        rw [List.all_eq_true] at hwf
        cases hroom : alGet st.rooms rk with
        | none =>
          unfold usersOf at hbefore
          rw [hroom] at hbefore
          simp [alHas, alGet] at hbefore
        | some room =>
          have hin := alGet_mem st.rooms rk room hroom
          have h3 := hwf (rk, room) hin
          unfold usersOf at hbefore
          rw [hroom] at hbefore
          simp only [hbefore, Bool.not_true, Bool.false_or] at h3
          exact hk (by simpa using h3)
    · have h2 := hT rk s hbefore
      simp only [getConn, alGet_alSet_ne st.conns sid s _ hs]
      exact h2
  | presenceUpdate sid status =>
    simp only [step]
    cases hcr : (getConn st sid).currentRoom with
    | none => exact hT
    | some roomKey =>
      cases hup : (getConn st sid).userPresence with
      | none => exact hT
      | some p =>
        dsimp only
        cases hr : alGet st.rooms roomKey with
        | none => exact hT
        | some room =>
          dsimp only
          by_cases hh : alHas room.users sid = true
          · rw [if_pos hh]
            intro rk s hmem
            dsimp only at hmem ⊢
            by_cases hs : s = sid
            · subst hs
              simp only [getConn, alGet_alSet_self, Option.getD_some]
              by_cases hk : rk = roomKey
              · subst hk; rfl
              · exfalso
                rw [usersOf_alSet_ne _ _ _ _ hk] at hmem
                have h2 := hT rk s hmem
                rw [hcr] at h2
                injection h2 with h3
                exact hk h3.symm
            · simp only [getConn, alGet_alSet_ne st.conns sid s _ hs]
              by_cases hk : rk = roomKey
              · subst hk
                rw [usersOf_alSet_self] at hmem
                dsimp only at hmem
                rw [alHas_alSet_ne _ _ _ _ hs] at hmem
                have hmem2 : alHas (usersOf st.rooms rk) s = true := by
                  unfold usersOf
                  rw [hr]
                  exact hmem
                exact hT rk s hmem2
              · rw [usersOf_alSet_ne _ _ _ _ hk] at hmem
                exact hT rk s hmem
          · rw [if_neg hh]
            exact hT
  | cursorUpdate sid x y =>
    simp only [step]
    cases hcr : (getConn st sid).currentRoom with
    | none => exact hT
    | some roomKey =>
      cases hup : (getConn st sid).userPresence with
      | none => exact hT
      | some p =>
        dsimp only
        cases hr : alGet st.rooms roomKey with
        | none => exact hT
        | some room =>
          dsimp only
          by_cases hh : alHas room.users sid = true
          · rw [if_pos hh]
            intro rk s hmem
            dsimp only at hmem ⊢
            by_cases hs : s = sid
            · subst hs
              simp only [getConn, alGet_alSet_self, Option.getD_some]
              by_cases hk : rk = roomKey
              · subst hk; rfl
              · exfalso
                rw [usersOf_alSet_ne _ _ _ _ hk] at hmem
                have h2 := hT rk s hmem
                rw [hcr] at h2
                injection h2 with h3
                exact hk h3.symm
            · simp only [getConn, alGet_alSet_ne st.conns sid s _ hs]
              by_cases hk : rk = roomKey
              · subst hk
                rw [usersOf_alSet_self] at hmem
                dsimp only at hmem
                rw [alHas_alSet_ne _ _ _ _ hs] at hmem
                have hmem2 : alHas (usersOf st.rooms rk) s = true := by
                  unfold usersOf
                  rw [hr]
                  exact hmem
                exact hT rk s hmem2
              · rw [usersOf_alSet_ne _ _ _ _ hk] at hmem
                exact hT rk s hmem
          · rw [if_neg hh]
            exact hT
  | editStart sid sparkId =>
    simp only [step]
    cases hcr : (getConn st sid).currentRoom with
    | none => exact hT
    | some roomKey =>
      cases hup : (getConn st sid).userPresence with
      | none => exact hT
      | some p =>
        dsimp only
        cases hr : alGet st.rooms roomKey with
        | none => exact hT
        | some room =>
          dsimp only
          intro rk s hmem
          by_cases hk : rk = roomKey
          · subst hk
            rw [usersOf_alSet_self] at hmem
            dsimp only at hmem
            have hmem2 : alHas (usersOf st.rooms rk) s = true := by
              unfold usersOf
              rw [hr]
              exact hmem
            exact hT rk s hmem2
          · rw [usersOf_alSet_ne _ _ _ _ hk] at hmem
            exact hT rk s hmem
  | editEnd sid sparkId =>
    simp only [step]
    cases hcr : (getConn st sid).currentRoom with
    | none => exact hT
    | some roomKey =>
      cases hup : (getConn st sid).userPresence with
      | none => exact hT
      | some p =>
        dsimp only
        cases hr : alGet st.rooms roomKey with
        | none => exact hT
        | some room =>
          dsimp only
          cases hsess : alGet room.activeSparks (sparkId ++ "_" ++ sid) with
          | none => exact hT
          | some sess =>
            dsimp only
            intro rk s hmem
            by_cases hk : rk = roomKey
            · subst hk
              rw [usersOf_alSet_self] at hmem
              dsimp only at hmem
              have hmem2 : alHas (usersOf st.rooms rk) s = true := by
                unfold usersOf
                rw [hr]
                exact hmem
              exact hT rk s hmem2
            · rw [usersOf_alSet_ne _ _ _ _ hk] at hmem
              exact hT rk s hmem
  | disconnect sid =>
    simp only [step]
    cases hcr : (getConn st sid).currentRoom with
    | none => exact hT
    | some roomKey =>
      dsimp only
      intro rk s hmem
      exact hT rk s (hul_alHas_imp st.rooms roomKey sid rk s hmem)

theorem alGet_eq_none_of_alHas_false {α : Type} (l : List (String × α)) (k : String)
    (h : alHas l k = false) : alGet l k = none := by
  cases hg : alGet l k with
  | none => rfl
  | some v =>
    exfalso
    simp [alHas, hg] at h

theorem usersOf_nodup (rooms : List (String × CollaborationRoom)) (h : roomsND rooms)
    (rk : String) : (alKeys (usersOf rooms rk)).Nodup := by
  cases hr : alGet rooms rk with
  | none => simp [usersOf, hr, alKeys]
  | some room =>
    unfold usersOf
    rw [hr]
    exact (h.2 rk room hr).1

theorem hul_alHas_ne_sid (rooms : List (String × CollaborationRoom)) (rk0 sid rk s : String)
    (hs : s ≠ sid) :
    alHas (usersOf (handleUserLeave rooms rk0 sid).1 rk) s = alHas (usersOf rooms rk) s := by
  by_cases hk : rk = rk0
  · subst hk
    rw [hul_usersOf_self, alHas_alDelete_ne _ _ _ hs]
  · rw [hul_usersOf_ne _ _ _ _ hk]

theorem notMember_of_tracked_ne (st : ServerState) (hT : trackInv st) (sid rk : String)
    (h : (getConn st sid).currentRoom ≠ some rk) :
    alHas (usersOf st.rooms rk) sid = false := by
  cases hmem : alHas (usersOf st.rooms rk) sid with
  | false => rfl
  | true => exact absurd (hT rk sid hmem) h

theorem stepMember (n : Nat) (st : ServerState) (e : Event) (hT : trackInv st)
    (s rk : String) :
    memberB (step n st e).1 s rk = joinedStepB s rk (memberB st s rk) e := by
  cases e with
  | join esid userId username avatar workspaceId =>
    simp only [step, joinedStepB, memberB]
    cases hcr : (getConn st esid).currentRoom with
    | none =>
      dsimp only
      unfold joinCore
      dsimp only
      by_cases hk : rk = "workspace_" ++ workspaceId
      · subst hk
        rw [usersOf_alSet_self]
        dsimp only
        by_cases hs : esid = s
        · subst hs
          rw [if_pos rfl, alHas_alSet_self]
          simp
        · rw [if_neg hs, alHas_alSet_ne _ _ _ _ (Ne.symm hs), getD_users_eq_usersOf]
      · rw [usersOf_alSet_ne _ _ _ _ hk]
        by_cases hs : esid = s
        · subst hs
          rw [if_pos rfl]
          have hfalse := notMember_of_tracked_ne st hT esid rk (by rw [hcr]; simp)
          rw [hfalse]
          simp [Ne.symm hk]
        · rw [if_neg hs]
    | some r0 =>
      dsimp only
      unfold joinCore
      dsimp only
      by_cases hk : rk = "workspace_" ++ workspaceId
      · subst hk
        rw [usersOf_alSet_self]
        dsimp only
        by_cases hs : esid = s
        · subst hs
          rw [if_pos rfl, alHas_alSet_self]
          simp
        · rw [if_neg hs, alHas_alSet_ne _ _ _ _ (Ne.symm hs), getD_users_eq_usersOf,
            hul_alHas_ne_sid _ _ _ _ _ (Ne.symm hs)]
      · rw [usersOf_alSet_ne _ _ _ _ hk]
        by_cases hs : esid = s
        · subst hs
          rw [if_pos rfl]
          by_cases hr0 : rk = r0
          · subst hr0
            rw [hul_usersOf_self, alHas_alDelete_self]
            simp [Ne.symm hk]
          · rw [hul_usersOf_ne _ _ _ _ hr0]
            have hfalse := notMember_of_tracked_ne st hT esid rk
              (by rw [hcr]; intro hcontra; injection hcontra with h4; exact hr0 h4.symm)
            rw [hfalse]
            simp [Ne.symm hk]
        · rw [if_neg hs, hul_alHas_ne_sid _ _ _ _ _ (Ne.symm hs)]
  | leave esid workspaceId =>
    simp only [step, joinedStepB, memberB]
    by_cases hs : esid = s
    · subst hs
      by_cases hk : "workspace_" ++ workspaceId = rk
      · rw [if_pos ⟨rfl, hk⟩]
        subst hk
        rw [hul_usersOf_self, alHas_alDelete_self]
      · rw [if_neg (fun hc => hk hc.2)]
        rw [hul_usersOf_ne _ _ _ _ (fun hc => hk hc.symm)]
    · rw [if_neg (fun hc => hs hc.1)]
      rw [hul_alHas_ne_sid _ _ _ _ _ (Ne.symm hs)]
  | presenceUpdate esid status =>
    simp only [step, joinedStepB, memberB]
    cases hcr : (getConn st esid).currentRoom with
    | none => rfl
    | some roomKey =>
      cases hup : (getConn st esid).userPresence with
      | none => rfl
      | some p =>
        dsimp only
        cases hr : alGet st.rooms roomKey with
        | none => rfl
        | some room =>
          dsimp only
          by_cases hh : alHas room.users esid = true
          · rw [if_pos hh]
            dsimp only
            by_cases hk : rk = roomKey
            · subst hk
              rw [usersOf_alSet_self]
              dsimp only
              unfold usersOf
              rw [hr]
              by_cases hs : s = esid
              · subst hs
                rw [alHas_alSet_self, hh]
              · rw [alHas_alSet_ne _ _ _ _ hs]
            · rw [usersOf_alSet_ne _ _ _ _ hk]
          · rw [if_neg hh]
  | cursorUpdate esid x y =>
    simp only [step, joinedStepB, memberB]
    cases hcr : (getConn st esid).currentRoom with
    | none => rfl
    | some roomKey =>
      cases hup : (getConn st esid).userPresence with
      | none => rfl
      | some p =>
        dsimp only
        cases hr : alGet st.rooms roomKey with
        | none => rfl
        | some room =>
          dsimp only
          by_cases hh : alHas room.users esid = true
          · rw [if_pos hh]
            dsimp only
            by_cases hk : rk = roomKey
            · subst hk
              rw [usersOf_alSet_self]
              dsimp only
              unfold usersOf
              rw [hr]
              by_cases hs : s = esid
              · subst hs
                rw [alHas_alSet_self, hh]
              · rw [alHas_alSet_ne _ _ _ _ hs]
            · rw [usersOf_alSet_ne _ _ _ _ hk]
          · rw [if_neg hh]
  | editStart esid sparkId =>
    simp only [step, joinedStepB, memberB]
    cases hcr : (getConn st esid).currentRoom with
    | none => rfl
    | some roomKey =>
      cases hup : (getConn st esid).userPresence with
      | none => rfl
      | some p =>
        dsimp only
        cases hr : alGet st.rooms roomKey with
        | none => rfl
        | some room =>
          dsimp only
          by_cases hk : rk = roomKey
          · subst hk
            rw [usersOf_alSet_self]
            dsimp only
            unfold usersOf
            rw [hr]
          · rw [usersOf_alSet_ne _ _ _ _ hk]
  | editEnd esid sparkId =>
    simp only [step, joinedStepB, memberB]
    cases hcr : (getConn st esid).currentRoom with
    | none => rfl
    | some roomKey =>
      cases hup : (getConn st esid).userPresence with
      | none => rfl
      | some p =>
        dsimp only
        cases hr : alGet st.rooms roomKey with
        | none => rfl
        | some room =>
          dsimp only
          cases hsess : alGet room.activeSparks (sparkId ++ "_" ++ esid) with
          | none => rfl
          | some sess =>
            dsimp only
            by_cases hk : rk = roomKey
            · subst hk
              rw [usersOf_alSet_self]
              dsimp only
              unfold usersOf
              rw [hr]
            · rw [usersOf_alSet_ne _ _ _ _ hk]
  | disconnect esid =>
    simp only [step, joinedStepB, memberB]
    cases hcr : (getConn st esid).currentRoom with
    | none =>
      dsimp only
      by_cases hs : esid = s
      · subst hs
        rw [if_pos rfl]
        exact notMember_of_tracked_ne st hT esid rk (by rw [hcr]; simp)
      · rw [if_neg hs]
    | some r0 =>
      dsimp only
      by_cases hs : esid = s
      · subst hs
        rw [if_pos rfl]
        by_cases hr0 : rk = r0
        · subst hr0
          rw [hul_usersOf_self, alHas_alDelete_self]
        · rw [hul_usersOf_ne _ _ _ _ hr0]
          exact notMember_of_tracked_ne st hT esid rk
            (by rw [hcr]; intro hcontra; injection hcontra with h4; exact hr0 h4.symm)
      · rw [if_neg hs, hul_alHas_ne_sid _ _ _ _ _ (Ne.symm hs)]

theorem length_alDelete_of_alHas (l : List (String × UserPresence)) (k : String)
    (hnd : (alKeys l).Nodup) (h : alHas l k = true) :
    (alDelete l k).length + 1 = l.length := by
  obtain ⟨v, hv⟩ := (alHas_eq_true_iff l k).mp h
  exact length_alDelete_get_some l k v hnd hv

theorem length_alSet_of_alHas_false (l : List (String × UserPresence)) (k : String)
    (v : UserPresence) (h : alHas l k = false) :
    (alSet l k v).length = l.length + 1 :=
  length_alSet_get_none l k v (alGet_eq_none_of_alHas_false l k h)

theorem stepLedger (n : Nat) (st : ServerState) (e : Event) (hND : roomsND st.rooms)
    (hT : trackInv st) (rk : String) :
    roomSize (step n st e).1 rk + removalsOfStep st e rk
      = roomSize st rk + joinsOfStep e rk := by
  cases e with
  | join esid userId username avatar workspaceId =>
    simp only [step, removalsOfStep, joinsOfStep, roomSize, memberB]
    cases hcr : (getConn st esid).currentRoom with
    | none =>
      dsimp only
      unfold joinCore
      dsimp only
      rw [if_neg (fun hc => Option.noConfusion hc.1)]
      by_cases hk : "workspace_" ++ workspaceId = rk
      · subst hk
        rw [usersOf_alSet_self, if_pos rfl]
        dsimp only
        rw [getD_users_eq_usersOf]
        have hfalse : alHas (usersOf st.rooms ("workspace_" ++ workspaceId)) esid = false :=
          notMember_of_tracked_ne st hT esid ("workspace_" ++ workspaceId) (by rw [hcr]; simp)
        rw [length_alSet_of_alHas_false _ _ _ hfalse]
      · rw [usersOf_alSet_ne _ _ _ _ (fun hc => hk hc.symm), if_neg hk]
    | some r0 =>
      dsimp only
      unfold joinCore
      dsimp only
      by_cases hk : "workspace_" ++ workspaceId = rk
      · subst hk
        rw [usersOf_alSet_self, if_pos rfl]
        dsimp only
        rw [getD_users_eq_usersOf]
        by_cases hr0 : r0 = "workspace_" ++ workspaceId
        · subst hr0
          rw [hul_usersOf_self]
          by_cases hm : alHas (usersOf st.rooms ("workspace_" ++ workspaceId)) esid = true
          · rw [if_pos ⟨rfl, hm⟩]
            rw [length_alSet_of_alHas_false _ _ _ (alHas_alDelete_self _ _)]
            rw [length_alDelete_of_alHas _ _ (usersOf_nodup st.rooms hND _) hm]
          · rw [if_neg (fun hc => hm hc.2)]
            rw [Bool.not_eq_true] at hm
            rw [alDelete_of_get_none _ _ (alGet_eq_none_of_alHas_false _ _ hm)]
            rw [length_alSet_of_alHas_false _ _ _ hm]
        · rw [hul_usersOf_ne _ _ _ _ (fun hc => hr0 hc.symm)]
          rw [if_neg (fun hc => hr0 (Option.some.inj hc.1))]
          have hfalse : alHas (usersOf st.rooms ("workspace_" ++ workspaceId)) esid = false :=
            notMember_of_tracked_ne st hT esid ("workspace_" ++ workspaceId)
              (by rw [hcr]; intro hc; exact hr0 (Option.some.inj hc))
          rw [length_alSet_of_alHas_false _ _ _ hfalse]
      · rw [usersOf_alSet_ne _ _ _ _ (fun hc => hk hc.symm), if_neg hk]
        by_cases hr0 : rk = r0
        · subst hr0
          rw [hul_usersOf_self]
          by_cases hm : alHas (usersOf st.rooms rk) esid = true
          · rw [if_pos ⟨rfl, hm⟩]
            rw [length_alDelete_of_alHas _ _ (usersOf_nodup st.rooms hND rk) hm]
            omega
          · rw [if_neg (fun hc => hm hc.2)]
            rw [Bool.not_eq_true] at hm
            rw [alDelete_of_get_none _ _ (alGet_eq_none_of_alHas_false _ _ hm)]
        · rw [hul_usersOf_ne _ _ _ _ hr0]
          rw [if_neg (fun hc => hr0 (Option.some.inj hc.1).symm)]
  | leave esid workspaceId =>
    simp only [step, removalsOfStep, joinsOfStep, roomSize, memberB]
    by_cases hk : "workspace_" ++ workspaceId = rk
    · subst hk
      rw [hul_usersOf_self]
      by_cases hm : alHas (usersOf st.rooms ("workspace_" ++ workspaceId)) esid = true
      · rw [if_pos ⟨rfl, hm⟩]
        rw [length_alDelete_of_alHas _ _ (usersOf_nodup st.rooms hND _) hm]
        omega
      · rw [if_neg (fun hc => hm hc.2)]
        rw [Bool.not_eq_true] at hm
        rw [alDelete_of_get_none _ _ (alGet_eq_none_of_alHas_false _ _ hm)]
    · rw [hul_usersOf_ne _ _ _ _ (fun hc => hk hc.symm), if_neg (fun hc => hk hc.1)]
  | presenceUpdate esid status =>
    simp only [step, removalsOfStep, joinsOfStep, roomSize, memberB]
    cases hcr : (getConn st esid).currentRoom with
    | none => rfl
    | some roomKey =>
      cases hup : (getConn st esid).userPresence with
      | none => rfl
      | some p =>
        dsimp only
        cases hr : alGet st.rooms roomKey with
        | none => rfl
        | some room =>
          dsimp only
          by_cases hh : alHas room.users esid = true
          · rw [if_pos hh]
            dsimp only
            by_cases hk : rk = roomKey
            · subst hk
              rw [usersOf_alSet_self]
              dsimp only
              unfold usersOf
              rw [hr]
              obtain ⟨v, hv⟩ := (alHas_eq_true_iff room.users esid).mp hh
              rw [length_alSet_get_some _ _ _ v hv]
            · rw [usersOf_alSet_ne _ _ _ _ hk]
          · rw [if_neg hh]
  | cursorUpdate esid x y =>
    simp only [step, removalsOfStep, joinsOfStep, roomSize, memberB]
    cases hcr : (getConn st esid).currentRoom with
    | none => rfl
    | some roomKey =>
      cases hup : (getConn st esid).userPresence with
      | none => rfl
      | some p =>
        dsimp only
        cases hr : alGet st.rooms roomKey with
        | none => rfl
        | some room =>
          dsimp only
          by_cases hh : alHas room.users esid = true
          · rw [if_pos hh]
            dsimp only
            by_cases hk : rk = roomKey
            · subst hk
              rw [usersOf_alSet_self]
              dsimp only
              unfold usersOf
              rw [hr]
              obtain ⟨v, hv⟩ := (alHas_eq_true_iff room.users esid).mp hh
              rw [length_alSet_get_some _ _ _ v hv]
            · rw [usersOf_alSet_ne _ _ _ _ hk]
          · rw [if_neg hh]
  | editStart esid sparkId =>
    simp only [step, removalsOfStep, joinsOfStep, roomSize, memberB]
    cases hcr : (getConn st esid).currentRoom with
    | none => rfl
    | some roomKey =>
      cases hup : (getConn st esid).userPresence with
      | none => rfl
      | some p =>
        dsimp only
        cases hr : alGet st.rooms roomKey with
        | none => rfl
        | some room =>
          dsimp only
          by_cases hk : rk = roomKey
          · subst hk
            rw [usersOf_alSet_self]
            dsimp only
            unfold usersOf
            rw [hr]
          · rw [usersOf_alSet_ne _ _ _ _ hk]
  | editEnd esid sparkId =>
    simp only [step, removalsOfStep, joinsOfStep, roomSize, memberB]
    cases hcr : (getConn st esid).currentRoom with
    | none => rfl
    | some roomKey =>
      cases hup : (getConn st esid).userPresence with
      | none => rfl
      | some p =>
        dsimp only
        cases hr : alGet st.rooms roomKey with
        | none => rfl
        | some room =>
          dsimp only
          cases hsess : alGet room.activeSparks (sparkId ++ "_" ++ esid) with
          | none => rfl
          | some sess =>
            dsimp only
            by_cases hk : rk = roomKey
            · subst hk
              rw [usersOf_alSet_self]
              dsimp only
              unfold usersOf
              rw [hr]
            · rw [usersOf_alSet_ne _ _ _ _ hk]
  | disconnect esid =>
    simp only [step, removalsOfStep, joinsOfStep, roomSize, memberB]
    cases hcr : (getConn st esid).currentRoom with
    | none =>
      dsimp only
      rw [if_neg (fun hc => Option.noConfusion hc.1)]
    | some r0 =>
      dsimp only
      by_cases hr0 : rk = r0
      · subst hr0
        rw [hul_usersOf_self]
        by_cases hm : alHas (usersOf st.rooms rk) esid = true
        · rw [if_pos ⟨rfl, hm⟩]
          rw [length_alDelete_of_alHas _ _ (usersOf_nodup st.rooms hND rk) hm]
          omega
        · rw [if_neg (fun hc => hm hc.2)]
          rw [Bool.not_eq_true] at hm
          rw [alDelete_of_get_none _ _ (alGet_eq_none_of_alHas_false _ _ hm)]
      · rw [hul_usersOf_ne _ _ _ _ hr0]
        rw [if_neg (fun hc => hr0 (Option.some.inj hc.1).symm)]

theorem trackInv_initState : trackInv initState := by
  intro rk sid h
  simp [usersOf, initState, alGet, alHas] at h

theorem runAux_inv (es : List Event) :
    ∀ n st, roomsND st.rooms → trackInv st → wfTraceB n st es = true →
      roomsND (runAux n st es).rooms ∧ trackInv (runAux n st es) := by
  induction es with
  | nil =>
    intro n st h1 h2 _
    exact ⟨h1, h2⟩
  | cons e es ih =>
    intro n st h1 h2 hwf
    simp only [wfTraceB, Bool.and_eq_true] at hwf
    exact ih (n + 1) (step n st e).1 (stepRoomsND n st e h1)
      (stepTrackInv n st e h2 hwf.1) hwf.2

theorem runAux_member (es : List Event) :
    ∀ n st, roomsND st.rooms → trackInv st → wfTraceB n st es = true → ∀ s rk,
      memberB (runAux n st es) s rk = es.foldl (joinedStepB s rk) (memberB st s rk) := by
  induction es with
  | nil =>
    intro n st _ _ _ s rk
    rfl
  | cons e es ih =>
    intro n st h1 h2 hwf s rk
    simp only [wfTraceB, Bool.and_eq_true] at hwf
    simp only [runAux, List.foldl_cons]
    rw [ih (n + 1) (step n st e).1 (stepRoomsND n st e h1) (stepTrackInv n st e h2 hwf.1) hwf.2,
      stepMember n st e h2 s rk]

theorem run_member (es : List Event) (hwf : wfTraceB 0 initState es = true) (s rk : String) :
    memberB (run es) s rk = joinedSpec es s rk :=
  runAux_member es 0 initState roomsND_initState trackInv_initState hwf s rk

theorem runAux_ledger (es : List Event) :
    ∀ n st, roomsND st.rooms → trackInv st → wfTraceB n st es = true → ∀ rk,
      roomSize (runAux n st es) rk + countRemovals rk n st es
        = roomSize st rk + countJoins es rk := by
  induction es with
  | nil =>
    intro n st _ _ _ rk
    simp [runAux, countRemovals, countJoins]
  | cons e es ih =>
    intro n st h1 h2 hwf rk
    simp only [wfTraceB, Bool.and_eq_true] at hwf
    simp only [runAux, countRemovals, countJoins, List.map_cons, List.sum_cons]
    have hstep := stepLedger n st e h1 h2 rk
    have hrec := ih (n + 1) (step n st e).1 (stepRoomsND n st e h1)
      (stepTrackInv n st e h2 hwf.1) hwf.2 rk
    simp only [countJoins] at hrec
    omega

theorem getConn_mk_conns (rooms : List (String × CollaborationRoom)) (st : ServerState)
    (s : String) : getConn ⟨rooms, st.conns⟩ s = getConn st s := rfl

theorem string_append_left_cancel (a b c : String) (h : a ++ b = a ++ c) : b = c := by
  have hd : (a ++ b).data = (a ++ c).data := congrArg String.data h
  simp only [String.data_append] at hd
  cases b with
  | mk bl =>
    cases c with
    | mk cl =>
      have : bl = cl := List.append_cancel_left hd
      rw [this]

theorem sparksOf_alSet_self (rooms : List (String × CollaborationRoom)) (rk : String)
    (room : CollaborationRoom) : sparksOf (alSet rooms rk room) rk = room.activeSparks := by
  simp [sparksOf, alGet_alSet_self]

/-- C1 (counterexample): the literal claim fails.  After c1Trace, room W has 0
sessions, but it saw 1 join event and 0 leave/disconnect events of its
members, so 0 + 0 is not 1: the session count does not equal joins minus
leave/disconnect removals. -/
theorem c1_counterexample :
    roomSize (run c1Trace) "workspace_W"
        + countEventRemovals "workspace_W" 0 initState c1Trace
      ≠ countJoins c1Trace "workspace_W" := by decide

/-- C1 (amended): over traces whose leave events name the workspace the sender
is actually in, the session count of every room equals the number of joins
into it minus the number of removals of its members, where removals count
leave/disconnect events of members and the implicit removal performed when a
member processes another join; the removal count never exceeds the join
count (the ledger never goes negative). -/
theorem c1_session_count (es : List Event) (rk : String)
    (hwf : wfTraceB 0 initState es = true) :
    roomSize (run es) rk + countRemovals rk 0 initState es = countJoins es rk
    ∧ countRemovals rk 0 initState es ≤ countJoins es rk := by
  have h := runAux_ledger es 0 initState roomsND_initState trackInv_initState hwf rk
  have h0 : roomSize initState rk = 0 := rfl
  unfold run
  omega

/-- C1 (witness): the amended ledger evaluated on a concrete well-formed
trace: 1 session + 2 removals = 3 joins. -/
theorem c1_session_count_witness :
    roomSize (run c1WfTrace) "workspace_W"
        + countRemovals "workspace_W" 0 initState c1WfTrace
      = countJoins c1WfTrace "workspace_W"
    ∧ countRemovals "workspace_W" 0 initState c1WfTrace
      ≤ countJoins c1WfTrace "workspace_W" :=
  c1_session_count c1WfTrace "workspace_W" (by decide)

/-- C5 (confirmed): in every reachable registry state, every room's users map
has no duplicate socket-id keys, so each room holds at most one Presence
Session per connection id, whatever sequence of events produced the state. -/
theorem c5_unique_session_per_connection (es : List Event) (rk : String) :
    (alKeys (usersOf (run es).rooms rk)).Nodup :=
  usersOf_nodup (run es).rooms (run_roomsND es) rk

theorem joinCore_shape (now : Nat) (rooms : List (String × CollaborationRoom))
    (conns : List (String × ConnState)) (sid uid uname : String) (av : Option String)
    (w : String) :
    ∃ room',
      (joinCore now rooms conns sid uid uname av w).1.rooms
        = alSet rooms ("workspace_" ++ w) room'
      ∧ room'.users
          = alSet (usersOf rooms ("workspace_" ++ w)) sid
              ⟨uid, uname, av, w, Status.online, now, none⟩
      ∧ (joinCore now rooms conns sid uid uname av w).2
          = [Emit.userJoined ("workspace_" ++ w) ⟨uid, uname, av, w, Status.online, now, none⟩,
             Emit.roomState sid (room'.users.map Prod.snd)
               (room'.activeSparks.map Prod.snd)] := by
  refine ⟨{ (alGet rooms ("workspace_" ++ w)).getD ⟨w, [], []⟩ with
      users := alSet ((alGet rooms ("workspace_" ++ w)).getD ⟨w, [], []⟩).users sid
        ⟨uid, uname, av, w, Status.online, now, none⟩ }, rfl, ?_, rfl⟩
  dsimp only
  rw [getD_users_eq_usersOf]

theorem join_snapshot_core (es : List Event) (n : Nat)
    (P : List (String × CollaborationRoom)) (ems0 : List Emit)
    (sid userId username : String) (avatar : Option String) (w : String)
    (hwf : wfTraceB 0 initState es = true)
    (e1 : (step n (run es) (Event.join sid userId username avatar w)).1
        = (joinCore n P (run es).conns sid userId username avatar w).1)
    (e2 : (step n (run es) (Event.join sid userId username avatar w)).2
        = ems0 ++ (joinCore n P (run es).conns sid userId username avatar w).2) :
    ∃ room' pre,
      alGet (step n (run es) (Event.join sid userId username avatar w)).1.rooms
          ("workspace_" ++ w) = some room'
      ∧ (step n (run es) (Event.join sid userId username avatar w)).2
          = pre ++ [Emit.userJoined ("workspace_" ++ w)
                      ⟨userId, username, avatar, w, Status.online, n, none⟩,
                    Emit.roomState sid (room'.users.map Prod.snd)
                      (room'.activeSparks.map Prod.snd)]
      ∧ alGet room'.users sid
          = some ⟨userId, username, avatar, w, Status.online, n, none⟩
      ∧ ∀ s, alHas room'.users s
          = joinedSpec (es ++ [Event.join sid userId username avatar w]) s
              ("workspace_" ++ w) := by
  have hT := (runAux_inv es 0 initState roomsND_initState trackInv_initState hwf).2
  obtain ⟨room', hrooms, husers, hems⟩ :=
    joinCore_shape n P (run es).conns sid userId username avatar w
  have hget : alGet (step n (run es) (Event.join sid userId username avatar w)).1.rooms
      ("workspace_" ++ w) = some room' := by
    rw [e1, hrooms]
    exact alGet_alSet_self _ _ _
  refine ⟨room', ems0, hget, ?_, ?_, ?_⟩
  · rw [e2, hems]
  · rw [husers]
    exact alGet_alSet_self _ _ _
  · intro s
    have hm := stepMember n (run es) (Event.join sid userId username avatar w) hT s
      ("workspace_" ++ w)
    rw [run_member es hwf s ("workspace_" ++ w)] at hm
    have hu : usersOf (step n (run es) (Event.join sid userId username avatar w)).1.rooms
        ("workspace_" ++ w) = room'.users := by
      unfold usersOf
      rw [hget]
    unfold memberB at hm
    rw [hu] at hm
    rw [hm]
    unfold joinedSpec
    rw [List.foldl_append]
    rfl

/-- C3 (amended): over well-formed traces (every leave names the workspace the
sender is in), a join creates the room if absent, inserts a presence session
with status online and last-seen equal to the current tick, broadcasts
user_joined and replies to the joiner with a room_state snapshot listing
exactly the sessions of currently-joined connections (no session of a
connection that has left or disconnected) and all current editing claims. -/
theorem c3_join_snapshot (es : List Event) (n : Nat) (sid userId username : String)
    (avatar : Option String) (w : String)
    (hwf : wfTraceB 0 initState es = true) :
    ∃ room' pre,
      alGet (step n (run es) (Event.join sid userId username avatar w)).1.rooms
          ("workspace_" ++ w) = some room'
      ∧ (step n (run es) (Event.join sid userId username avatar w)).2
          = pre ++ [Emit.userJoined ("workspace_" ++ w)
                      ⟨userId, username, avatar, w, Status.online, n, none⟩,
                    Emit.roomState sid (room'.users.map Prod.snd)
                      (room'.activeSparks.map Prod.snd)]
      ∧ alGet room'.users sid
          = some ⟨userId, username, avatar, w, Status.online, n, none⟩
      ∧ ∀ s, alHas room'.users s
          = joinedSpec (es ++ [Event.join sid userId username avatar w]) s
              ("workspace_" ++ w) := by
  cases hcr : (getConn (run es) sid).currentRoom with
  | none =>
    refine join_snapshot_core es n (run es).rooms [] sid userId username avatar w hwf ?_ ?_
    · simp only [step, hcr]
    · simp only [step, hcr]
  | some r0 =>
    refine join_snapshot_core es n (handleUserLeave (run es).rooms r0 sid).1
      (handleUserLeave (run es).rooms r0 sid).2 sid userId username avatar w hwf ?_ ?_
    · simp only [step, hcr]
    · simp only [step, hcr]

/-- C3 (counterexample): after c3Trace, a fresh join by s2 receives a
room_state snapshot that still lists s1's session even though s1 has
disconnected (is no longer currently joined). -/
theorem c3_counterexample :
    ((step 3 (run c3Trace) (Event.join "s2" "u2" "n2" none "W")).2.any
      (fun e => match e with
        | Emit.roomState _ us _ => us.any (fun u => u.userId == "u1")
        | _ => false)) = true
    ∧ joinedSpec (c3Trace ++ [Event.join "s2" "u2" "n2" none "W"]) "s1" "workspace_W"
        = false := by decide

/-- C3 (witness): the amended snapshot theorem evaluated on the empty trace. -/
theorem c3_join_snapshot_witness :
    ∃ room' pre,
      alGet (step 0 (run []) (Event.join "s" "u" "nm" none "W")).1.rooms
          ("workspace_" ++ "W") = some room'
      ∧ (step 0 (run []) (Event.join "s" "u" "nm" none "W")).2
          = pre ++ [Emit.userJoined ("workspace_" ++ "W")
                      ⟨"u", "nm", none, "W", Status.online, 0, none⟩,
                    Emit.roomState "s" (room'.users.map Prod.snd)
                      (room'.activeSparks.map Prod.snd)]
      ∧ alGet room'.users "s"
          = some ⟨"u", "nm", none, "W", Status.online, 0, none⟩
      ∧ ∀ s, alHas room'.users s
          = joinedSpec ([] ++ [Event.join "s" "u" "nm" none "W"]) s ("workspace_" ++ "W") :=
  c3_join_snapshot [] 0 "s" "u" "nm" none "W" (by decide)

theorem step_disconnect_noop (m : Nat) (s1 : ServerState) (sid : String)
    (hnone : (getConn s1 sid).currentRoom = none) :
    (step m s1 (Event.disconnect sid)).1 = s1 := by
  simp only [step, hnone]

/-- C10 (confirmed): if a connection tracked in room W (with a session there)
processes a leave naming a different workspace W2, room W is left entirely
unchanged (session and any claims included) while the connection's tracked
current room is cleared, so a following disconnect performs no cleanup at all:
the session survives both events. -/
theorem c10_wrong_workspace_leave (n m : Nat) (st : ServerState) (sid W W2 : String)
    (room : CollaborationRoom) (hW : W2 ≠ W)
    (_hcr : (getConn st sid).currentRoom = some ("workspace_" ++ W))
    (hroom : alGet st.rooms ("workspace_" ++ W) = some room)
    (hmem : alHas room.users sid = true) :
    alGet (step m (step n st (Event.leave sid W2)).1 (Event.disconnect sid)).1.rooms
        ("workspace_" ++ W) = some room
    ∧ alHas room.users sid = true
    ∧ (getConn (step m (step n st (Event.leave sid W2)).1 (Event.disconnect sid)).1
        sid).currentRoom = none := by
  have hkey : ("workspace_" ++ W) ≠ ("workspace_" ++ W2) := fun hc =>
    hW (string_append_left_cancel _ _ _ hc).symm
  have h1 : (step n st (Event.leave sid W2)).1
      = ⟨(handleUserLeave st.rooms ("workspace_" ++ W2) sid).1,
         alSet st.conns sid ⟨(getConn st sid).userPresence, none⟩⟩ := rfl
  have h2 : (getConn (step n st (Event.leave sid W2)).1 sid).currentRoom = none := by
    rw [h1]
    simp [getConn, alGet_alSet_self]
  have h3 := step_disconnect_noop m (step n st (Event.leave sid W2)).1 sid h2
  refine ⟨?_, hmem, ?_⟩
  · rw [h3, h1]
    dsimp only
    rw [hul_alGet_ne st.rooms ("workspace_" ++ W2) sid ("workspace_" ++ W) hkey]
    exact hroom
  · rw [h3]
    exact h2

/-- C10 (witness): the theorem evaluated on c10Trace with a leave naming X. -/
theorem c10_wrong_workspace_leave_witness :
    alGet (step 3 (step 2 (run c10Trace) (Event.leave "s" "X")).1
        (Event.disconnect "s")).1.rooms ("workspace_" ++ "W")
      = some ((alGet (run c10Trace).rooms ("workspace_" ++ "W")).getD ⟨"W", [], []⟩)
    ∧ alHas ((alGet (run c10Trace).rooms ("workspace_" ++ "W")).getD ⟨"W", [], []⟩).users "s"
        = true
    ∧ (getConn (step 3 (step 2 (run c10Trace) (Event.leave "s" "X")).1
        (Event.disconnect "s")).1 "s").currentRoom = none :=
  c10_wrong_workspace_leave 2 3 (run c10Trace) "s" "W" "X"
    ((alGet (run c10Trace).rooms ("workspace_" ++ "W")).getD ⟨"W", [], []⟩)
    (by decide) (by decide) (by decide) (by decide)

theorem step_editStart_eq (k : Nat) (s : ServerState) (esid sp rk : String)
    (p : UserPresence) (room : CollaborationRoom)
    (hcr : (getConn s esid).currentRoom = some rk)
    (hp : (getConn s esid).userPresence = some p)
    (hroom : alGet s.rooms rk = some room) :
    (step k s (Event.editStart esid sp)).1
      = ⟨alSet s.rooms rk
           { room with
             activeSparks := alSet room.activeSparks (sp ++ "_" ++ esid) ⟨sp, p.userId, p.username, k⟩ },
         s.conns⟩ := by
  simp only [step, hcr, hp, hroom]

/-- C8 (confirmed): when two distinct connections in the same room both begin
editing the same item, both editing claims are present afterwards: the second
begin-edit neither removes nor replaces the first connection's claim on that
item, because the two claims live under the distinct keys item_sid1 and
item_sid2. -/
theorem c8_concurrent_claims (n m : Nat) (st : ServerState) (sid1 sid2 sp rk : String)
    (p1 p2 : UserPresence) (room : CollaborationRoom)
    (hne : sid1 ≠ sid2)
    (h1cr : (getConn st sid1).currentRoom = some rk)
    (h1p : (getConn st sid1).userPresence = some p1)
    (h2cr : (getConn st sid2).currentRoom = some rk)
    (h2p : (getConn st sid2).userPresence = some p2)
    (hroom : alGet st.rooms rk = some room) :
    alGet (sparksOf (step m (step n st (Event.editStart sid1 sp)).1
        (Event.editStart sid2 sp)).1.rooms rk) (sp ++ "_" ++ sid1)
      = some ⟨sp, p1.userId, p1.username, n⟩
    ∧ alGet (sparksOf (step m (step n st (Event.editStart sid1 sp)).1
        (Event.editStart sid2 sp)).1.rooms rk) (sp ++ "_" ++ sid2)
      = some ⟨sp, p2.userId, p2.username, m⟩ := by
  have hkey : (sp ++ "_" ++ sid1) ≠ (sp ++ "_" ++ sid2) := fun hc =>
    hne (string_append_left_cancel (sp ++ "_") sid1 sid2 hc)
  have h1 := step_editStart_eq n st sid1 sp rk p1 room h1cr h1p hroom
  have h2cr1 : (getConn (step n st (Event.editStart sid1 sp)).1 sid2).currentRoom
      = some rk := by
    rw [h1]
    exact h2cr
  have h2p1 : (getConn (step n st (Event.editStart sid1 sp)).1 sid2).userPresence
      = some p2 := by
    rw [h1]
    exact h2p
  have hroom1 : alGet (step n st (Event.editStart sid1 sp)).1.rooms rk
      = some { room with
               activeSparks := alSet room.activeSparks (sp ++ "_" ++ sid1) ⟨sp, p1.userId, p1.username, n⟩ } := by
    rw [h1]
    exact alGet_alSet_self _ _ _
  have h2 := step_editStart_eq m (step n st (Event.editStart sid1 sp)).1 sid2 sp rk p2 _
    h2cr1 h2p1 hroom1
  rw [h2]
  dsimp only
  rw [sparksOf_alSet_self]
  dsimp only
  constructor
  · rw [alGet_alSet_ne _ _ _ _ hkey]
    exact alGet_alSet_self _ _ _
  · exact alGet_alSet_self _ _ _

/-- C8 (witness): both concurrent claims on item it coexist after c8Trace. -/
theorem c8_concurrent_claims_witness :
    alGet (sparksOf (step 3 (step 2 (run c8Trace) (Event.editStart "s1" "it")).1
        (Event.editStart "s2" "it")).1.rooms "workspace_W") ("it" ++ "_" ++ "s1")
      = some ⟨"it", "u1", "n1", 2⟩
    ∧ alGet (sparksOf (step 3 (step 2 (run c8Trace) (Event.editStart "s1" "it")).1
        (Event.editStart "s2" "it")).1.rooms "workspace_W") ("it" ++ "_" ++ "s2")
      = some ⟨"it", "u2", "n2", 3⟩ :=
  c8_concurrent_claims 2 3 (run c8Trace) "s1" "s2" "it" "workspace_W"
    ⟨"u1", "n1", none, "W", Status.online, 0, none⟩
    ⟨"u2", "n2", none, "W", Status.online, 1, none⟩
    ((alGet (run c8Trace).rooms "workspace_W").getD ⟨"W", [], []⟩)
    (by decide) (by decide) (by decide) (by decide) (by decide) (by decide)

/-- C2 (code bug): before c's disconnect, b_c's claim "a_b_c" is present;
after c disconnects, b_c is still a member of room W yet its claim is gone:
the cleanup filter keys.endsWith("_c") also matches "a_b_c", so the
disconnect of c removes a claim belonging to the distinct connection b_c. -/
theorem c2_disconnect_collision :
    alGet (sparksOf (run c2Trace).rooms "workspace_W") "a_b_c"
        = some ⟨"a", "u1", "n1", 2⟩
    ∧ memberB (run (c2Trace ++ [Event.disconnect "c"])) "b_c" "workspace_W" = true
    ∧ alGet (sparksOf (run (c2Trace ++ [Event.disconnect "c"])).rooms "workspace_W")
        "a_b_c" = none := by decide

/-- C6 (code bug): the room's only claim is c's claim on a_b; an end-edit from
b_c for item a — on which b_c holds no claim, having begun none — computes the
key "a" ++ "_" ++ "b_c" = "a_b_c", finds c's claim, deletes it and emits
spark_editing_ended, instead of being a no-op. -/
theorem c6_endEdit_collision :
    sparksOf (run c6Trace).rooms "workspace_W" = [("a_b_c", ⟨"a_b", "u1", "n1", 1⟩)]
    ∧ (step 3 (run c6Trace) (Event.editEnd "b_c" "a")).2
        = [Emit.editingEnded "workspace_W" "a" "u2" "n2"]
    ∧ sparksOf (step 3 (run c6Trace) (Event.editEnd "b_c" "a")).1.rooms "workspace_W"
        = [] := by decide

theorem runDrops_exhausted (st : ClientState) (reasons : List String)
    (h : maxReconnectAttempts ≤ st.reconnectAttempts) : (runDrops st reasons).2 = [] := by
  induction reasons generalizing st with
  | nil => rfl
  | cons r rs ih =>
    unfold runDrops
    by_cases hr : r = "io server disconnect"
    · have hx : handleDrop r st
          = ({ st with connectionStatus := ConnStatus.disconnected }, none) := by
        unfold handleDrop
        rw [if_pos hr]
      rw [hx]
      dsimp only
      simp only [Option.toList, List.nil_append]
      exact ih _ h
    · have hx : handleDrop r st
          = (⟨ConnStatus.error, st.reconnectAttempts⟩, none) := by
        unfold handleDrop attemptReconnect
        rw [if_neg hr, if_pos h]
      rw [hx]
      dsimp only
      simp only [Option.toList, List.nil_append]
      exact ih _ h

/-- C4 (confirmed): while under the attempt cap, each reconnect attempt
schedules a delay of baseDelay * 2^(attempt-1), so the delay doubles and
strictly increases from one consecutive attempt to the next; once the cap is
reached, attemptReconnect sets status error and schedules nothing, and any
further sequence of drops (of any reasons) schedules no delay at all — the
error state is terminal until an explicit connect resets the counter. -/
theorem c4_backoff (st : ClientState) (reasons : List String) :
    (st.reconnectAttempts + 1 < maxReconnectAttempts →
      (attemptReconnect st).2 = some (baseReconnectDelay * 2 ^ st.reconnectAttempts)
      ∧ (attemptReconnect (attemptReconnect st).1).2
          = some (baseReconnectDelay * 2 ^ (st.reconnectAttempts + 1))
      ∧ baseReconnectDelay * 2 ^ st.reconnectAttempts
          < baseReconnectDelay * 2 ^ (st.reconnectAttempts + 1))
    ∧ (maxReconnectAttempts ≤ st.reconnectAttempts →
      attemptReconnect st = ({ st with connectionStatus := ConnStatus.error }, none)
      ∧ (runDrops st reasons).2 = []) := by
  constructor
  · intro hlt
    have hn1 : ¬ maxReconnectAttempts ≤ st.reconnectAttempts := by omega
    refine ⟨?_, ?_, ?_⟩
    · unfold attemptReconnect
      rw [if_neg hn1]
      simp
    · have h1 : (attemptReconnect st).1 = ⟨ConnStatus.reconnecting, st.reconnectAttempts + 1⟩ := by
        unfold attemptReconnect
        rw [if_neg hn1]
      rw [h1]
      have hn2 : ¬ maxReconnectAttempts ≤ st.reconnectAttempts + 1 := by omega
      unfold attemptReconnect
      rw [if_neg hn2]
      simp
    · have hpos : 0 < 2 ^ st.reconnectAttempts := pow_pos (by norm_num) _
      rw [pow_succ]
      unfold baseReconnectDelay
      omega
  · intro hge
    refine ⟨?_, runDrops_exhausted st reasons hge⟩
    unfold attemptReconnect
    rw [if_pos hge]

/-- C4 (witness): the first attempt from a fresh client schedules the base
delay of 1000 ms. -/
theorem c4_backoff_witness :
    (attemptReconnect ⟨ConnStatus.disconnected, 0⟩).2
      = some (baseReconnectDelay * 2 ^ (0 : Nat)) :=
  ((c4_backoff ⟨ConnStatus.disconnected, 0⟩ []).1 (by decide)).1

/-- C7 (confirmed): a drop whose reason is the server-initiated close leaves
the client status disconnected and schedules no reconnect attempt; a reconnect
is scheduled only when the reason is not the server-initiated close. -/
theorem c7_server_close_no_retry (st : ClientState) (reason : String) :
    ((handleDrop "io server disconnect" st).1.connectionStatus = ConnStatus.disconnected
      ∧ (handleDrop "io server disconnect" st).2 = none)
    ∧ ((handleDrop reason st).2 ≠ none → reason ≠ "io server disconnect") := by
  refine ⟨⟨?_, ?_⟩, ?_⟩
  · unfold handleDrop
    rw [if_pos rfl]
  · unfold handleDrop
    rw [if_pos rfl]
  · intro h hc
    subst hc
    unfold handleDrop at h
    rw [if_pos rfl] at h
    exact h rfl

/-- C7 (witness): the theorem evaluated on a connected client. -/
theorem c7_server_close_no_retry_witness :
    (handleDrop "io server disconnect" ⟨ConnStatus.connected, 0⟩).2 = none :=
  (c7_server_close_no_retry ⟨ConnStatus.connected, 0⟩ "transport close").1.2

/-- C9 (counterexample): a client with a tracked workspace membership whose
socket is not currently connected (for example mid-reconnect after a drop
while idle) receives a tracked input event: updatePresence is a no-op when
the socket is disconnected, so the status stays idle instead of transitioning
back to online. -/
theorem c9_counterexample :
    (resetTimers 0 ⟨false, true, Status.idle, none, none⟩).status = Status.idle
    ∧ Status.idle ≠ Status.online := by decide

/-- C9 (amended): for a connected client with a tracked workspace membership:
the idle timer firing at its deadline demotes online to idle and arms the
away timer with the longer away threshold; the away timer firing demotes idle
to away; and a tracked input event at any time clears both timers, re-arms
the idle timer and sets the status to online whatever it was; the away
threshold is strictly longer than the idle threshold. -/
theorem c9_activity_tracking (st : ActivityState) (now : Nat)
    (hc : st.connected = true) (hu : st.hasUser = true) :
    (st.status = Status.online → st.idleTimer = some now →
        (fireIdle now st).status = Status.idle
        ∧ (fireIdle now st).awayTimer = some (now + awayThresholdMs))
    ∧ (st.status = Status.idle → st.awayTimer = some now →
        (fireAway now st).status = Status.away)
    ∧ ((resetTimers now st).status = Status.online
        ∧ (resetTimers now st).idleTimer = some (now + idleThresholdMs)
        ∧ (resetTimers now st).awayTimer = none)
    ∧ idleThresholdMs < awayThresholdMs := by
  obtain ⟨c, u, s, t1, t2⟩ := st
  dsimp only at hc hu
  subst hc
  subst hu
  refine ⟨?_, ?_, ?_, ?_⟩
  · intro hs _
    dsimp only at hs
    subst hs
    constructor <;> simp [fireIdle, updatePresence]
  · intro hs _
    dsimp only at hs
    subst hs
    simp [fireAway, updatePresence]
  · refine ⟨?_, ?_, ?_⟩ <;>
      cases s <;> simp [resetTimers, clearPresenceTimers, updatePresence]
  · decide

/-- C9 (witness): the amended theorem evaluated on a connected online client
whose idle timer fires at tick 5. -/
theorem c9_activity_tracking_witness :
    (fireIdle 5 ⟨true, true, Status.online, some 5, none⟩).status = Status.idle
    ∧ (fireIdle 5 ⟨true, true, Status.online, some 5, none⟩).awayTimer
        = some (5 + awayThresholdMs) :=
  (c9_activity_tracking ⟨true, true, Status.online, some 5, none⟩ 5 rfl rfl).1 rfl rfl

end Spark
